import Mathlib

/-!
Verification of the viet_lott_analysis pipeline core.

Shallow embedding of the Python source into Lean 4:
* real-valued quantities (Python floats) are modelled as rationals (`ℚ`);
* Python dicts keyed by the numeric range are modelled as association lists
  `List (ℕ × ℚ)` whose key order is the dict insertion order (the range order);
* Python functions that can raise are modelled as `Option`/`Except` values,
  `none`/`error` exactly at the inputs where the Python code raises;
* Python strings are modelled as lists of character codes (`List ℕ`).

Sources embedded: src/models/ensemble_predictor.py,
src/models/statistical/{frequency_analyzer,gap_analyzer,position_bias}.py,
src/models/ml/markov_chain.py, src/pipeline/{result_checker,cycle_manager,
retrain_evaluator,prediction_generator}.py, src/utils/supabase_client.py.
-/

set_option maxHeartbeats 1000000

/-! ## Ensemble weights (src/models/ensemble_predictor.py) -/

/-- `WEIGHT_MIN` from ensemble_predictor.py. -/
def WEIGHT_MIN : ℚ := 10 / 100

/-- `WEIGHT_MAX` from ensemble_predictor.py. -/
def WEIGHT_MAX : ℚ := 60 / 100

/-- The stored triple of ensemble weights (`w_lstm`, `w_xgb`, `w_stat`). -/
structure Weights where
  mk ::
  lstm : ℚ
  xgb : ℚ
  stat : ℚ
deriving Repr, DecidableEq

/-- One clamp `max(WEIGHT_MIN, min(WEIGHT_MAX, w))` from `update_weights`. -/
def clampWeight (w : ℚ) : ℚ := max WEIGHT_MIN (min WEIGHT_MAX w)

/-- `EnsemblePredictor.update_weights` (ensemble_predictor.py lines 72-82):
clamp each incoming weight to `[WEIGHT_MIN, WEIGHT_MAX]`, then divide each
clamped weight by their total. -/
def update_weights (lstm_w xgb_w stat_w : ℚ) : Weights :=
  let wl := clampWeight lstm_w
  let wx := clampWeight xgb_w
  let ws := clampWeight stat_w
  let total := wl + wx + ws
  Weights.mk (wl / total) (wx / total) (ws / total)

lemma clampWeight_ge (w : ℚ) : WEIGHT_MIN ≤ clampWeight w := le_max_left _ _

lemma clampWeight_le (w : ℚ) : clampWeight w ≤ WEIGHT_MAX := by
  unfold clampWeight WEIGHT_MIN WEIGHT_MAX
  exact max_le (by norm_num) (min_le_left _ _)

lemma clamp_frac_bounds {a t : ℚ} (ha : WEIGHT_MIN ≤ a) (hax : a ≤ WEIGHT_MAX)
    (h1 : a + 2 * WEIGHT_MIN ≤ t) (h2 : t ≤ a + 2 * WEIGHT_MAX) :
    1 / 13 ≤ a / t ∧ a / t ≤ 3 / 4 := by
  unfold WEIGHT_MIN WEIGHT_MAX at *
  have hpos : (0 : ℚ) < t := by linarith
  constructor
  · rw [div_le_div_iff (by norm_num) hpos]; linarith
  · rw [div_le_div_iff hpos (by norm_num)]; linarith

/-- C1 (counterexample): on input `(0.9, 0, 0)` the clamped weights are
`(0.6, 0.1, 0.1)` with total `0.8`, so the stored lstm weight is `0.75`,
strictly above `WEIGHT_MAX = 0.60`: the claimed `[0.10, 0.60]` band does
not survive renormalization. -/
theorem update_weights_band_counterexample :
    (update_weights (9 / 10) 0 0).lstm = 3 / 4 ∧
      ¬ (update_weights (9 / 10) 0 0).lstm ≤ WEIGHT_MAX := by
  constructor
  · norm_num [update_weights, clampWeight, WEIGHT_MIN, WEIGHT_MAX]
  · norm_num [update_weights, clampWeight, WEIGHT_MIN, WEIGHT_MAX]

/-- C1 (amended): for every input triple, `update_weights` clamps each weight
to `[WEIGHT_MIN, WEIGHT_MAX]` and renormalizes by the total; the three stored
weights sum to exactly 1 (so within any floating tolerance such as 1e-3), and
each stored weight lies in `[1/13, 3/4]`
(`= [WEIGHT_MIN/(WEIGHT_MIN + 2·WEIGHT_MAX), WEIGHT_MAX/(WEIGHT_MAX + 2·WEIGHT_MIN)]`);
the `[0.10, 0.60]` band itself is guaranteed only for the clamped values
before renormalization, not for the stored weights. -/
theorem update_weights_spec (lstm_w xgb_w stat_w : ℚ) :
    (update_weights lstm_w xgb_w stat_w).lstm
        + (update_weights lstm_w xgb_w stat_w).xgb
        + (update_weights lstm_w xgb_w stat_w).stat = 1 ∧
    (∀ w ∈ [(update_weights lstm_w xgb_w stat_w).lstm,
            (update_weights lstm_w xgb_w stat_w).xgb,
            (update_weights lstm_w xgb_w stat_w).stat],
        1 / 13 ≤ w ∧ w ≤ 3 / 4) ∧
    (∀ w ∈ [clampWeight lstm_w, clampWeight xgb_w, clampWeight stat_w],
        WEIGHT_MIN ≤ w ∧ w ≤ WEIGHT_MAX) := by
  have hl := clampWeight_ge lstm_w
  have hx := clampWeight_ge xgb_w
  have hs := clampWeight_ge stat_w
  have hl2 := clampWeight_le lstm_w
  have hx2 := clampWeight_le xgb_w
  have hs2 := clampWeight_le stat_w
  have hpos : (0 : ℚ) < clampWeight lstm_w + clampWeight xgb_w + clampWeight stat_w := by
    unfold WEIGHT_MIN at hl hx hs; linarith
  refine ⟨?_, ?_, ?_⟩
  · show clampWeight lstm_w / _ + clampWeight xgb_w / _ + clampWeight stat_w / _ = 1
    rw [div_add_div_same, div_add_div_same, div_self (ne_of_gt hpos)]
  · intro w hw
    simp only [List.mem_cons, List.not_mem_nil, or_false] at hw
    rcases hw with h | h | h <;> subst h <;>
      exact clamp_frac_bounds (by assumption) (by assumption)
        (by unfold WEIGHT_MIN at *; linarith) (by unfold WEIGHT_MAX at *; linarith)
  · intro w hw
    simp only [List.mem_cons, List.not_mem_nil, or_false] at hw
    rcases hw with h | h | h <;> subst h <;>
      exact ⟨clampWeight_ge _, clampWeight_le _⟩

/-! ## Result checker (src/pipeline/result_checker.py) -/

/-- Prize tier strings returned by the prize functions in result_checker.py. -/
inductive PrizeLevel where
  | JACKPOT_1
  | JACKPOT_2
  | JACKPOT
  | PRIZE_1
  | PRIZE_2
  | PRIZE_3
  | PRIZE_4
  | PRIZE_5
  | PRIZE_KK
  | NO_PRIZE
deriving Repr, DecidableEq

/-- `_prize_655` (result_checker.py lines 18-30): Power 6/55 prize ladder. -/
def prize_655 (matched_count : ℕ) (jackpot2_matched : Bool) : PrizeLevel :=
  if matched_count = 6 then PrizeLevel.JACKPOT_1
  else if matched_count = 5 ∧ jackpot2_matched = true then PrizeLevel.JACKPOT_2
  else if matched_count = 5 then PrizeLevel.PRIZE_1
  else if matched_count = 4 then PrizeLevel.PRIZE_2
  else if matched_count = 3 then PrizeLevel.PRIZE_3
  else PrizeLevel.NO_PRIZE

/-- `sorted(set(predicted_nums) & set(actual_numbers))` from `check_result`
(result_checker.py line 130): the distinct common elements, sorted ascending. -/
def matched_numbers (predicted actual : List ℕ) : List ℕ :=
  List.insertionSort (· ≤ ·) (predicted.dedup.filter (fun x => decide (x ∈ actual)))

/-- The match-computation step of `check_result` for `lottery_type = "power_655"`
(result_checker.py lines 129-138): matched numbers, matched count, whether the
actual special number (`jackpot2`) appears among the predicted main numbers,
and the prize level. -/
def check_match_655 (predicted actual : List ℕ) (actual_special : Option ℕ) :
    List ℕ × ℕ × Bool × PrizeLevel :=
  let matched := matched_numbers predicted actual
  let matched_count := matched.length
  let j2_matched :=
    match actual_special with
    | some s => decide (s ∈ predicted)
    | none => false
  (matched, matched_count, j2_matched, prize_655 matched_count j2_matched)

lemma matched_numbers_toFinset (p a : List ℕ) :
    (matched_numbers p a).toFinset = p.toFinset ∩ a.toFinset := by
  unfold matched_numbers
  ext x
  simp only [List.mem_toFinset, Finset.mem_inter]
  rw [(List.perm_insertionSort (· ≤ ·)
    (p.dedup.filter (fun x => decide (x ∈ a)))).mem_iff]
  simp [List.mem_filter, List.mem_dedup]

lemma matched_numbers_sorted (p a : List ℕ) :
    (matched_numbers p a).Sorted (· ≤ ·) :=
  List.sorted_insertionSort _ _

lemma matched_numbers_nodup (p a : List ℕ) : (matched_numbers p a).Nodup :=
  (List.perm_insertionSort (· ≤ ·) _).nodup_iff.mpr (List.Nodup.filter _ p.nodup_dedup)

/-- C3: `check_result` computes `matched` as the order-independent set
intersection of predicted and actual main numbers (sorted ascending, no
duplicates, and symmetric in its two arguments), and classifies the Power 6/55
tier by `_prize_655`: 6 matches give JACKPOT_1 unconditionally, 5 matches
split into JACKPOT_2 (special matched) vs PRIZE_1, 4 give PRIZE_2, 3 give
PRIZE_3, anything else NO_PRIZE; on predicted `[5,14,22,33,41,52]` and actual
`[5,9,22,30,41,49]` (no special) the result is `matched = [5,22,41]`,
`matched_count = 3`, tier PRIZE_3. -/
theorem check_result_655_spec :
    (∀ p a : List ℕ, (matched_numbers p a).toFinset = p.toFinset ∩ a.toFinset ∧
        matched_numbers p a = matched_numbers a p ∧
        (matched_numbers p a).Sorted (· ≤ ·) ∧ (matched_numbers p a).Nodup) ∧
    (∀ b, prize_655 6 b = PrizeLevel.JACKPOT_1) ∧
    prize_655 5 true = PrizeLevel.JACKPOT_2 ∧
    prize_655 5 false = PrizeLevel.PRIZE_1 ∧
    (∀ b, prize_655 4 b = PrizeLevel.PRIZE_2) ∧
    (∀ b, prize_655 3 b = PrizeLevel.PRIZE_3) ∧
    (∀ m b, m ≤ 2 ∨ 7 ≤ m → prize_655 m b = PrizeLevel.NO_PRIZE) ∧
    check_match_655 [5, 14, 22, 33, 41, 52] [5, 9, 22, 30, 41, 49] none =
      ([5, 22, 41], 3, false, PrizeLevel.PRIZE_3) := by
  refine ⟨?_, ?_, by decide, by decide, ?_, ?_, ?_, by decide⟩
  · intro p a
    refine ⟨matched_numbers_toFinset p a, ?_, matched_numbers_sorted p a,
        matched_numbers_nodup p a⟩
    have hperm : (matched_numbers p a).Perm (matched_numbers a p) := by
      apply List.perm_of_nodup_nodup_toFinset_eq (matched_numbers_nodup p a)
        (matched_numbers_nodup a p)
      rw [matched_numbers_toFinset, matched_numbers_toFinset, Finset.inter_comm]
    exact List.eq_of_perm_of_sorted hperm (matched_numbers_sorted p a)
      (matched_numbers_sorted a p)
  · intro b; cases b <;> decide
  · intro b; cases b <;> decide
  · intro b; cases b <;> decide
  · intro m b hm
    have h6 : m ≠ 6 := by rcases hm with h | h <;> omega
    have h5 : m ≠ 5 := by rcases hm with h | h <;> omega
    have h4 : m ≠ 4 := by rcases hm with h | h <;> omega
    have h3 : m ≠ 3 := by rcases hm with h | h <;> omega
    unfold prize_655
    simp [h6, h5, h4, h3]

/-- C3 witness: the NO_PRIZE branch of the ladder applied at
`matched_count = 2`. -/
theorem check_result_655_spec_witness : prize_655 2 false = PrizeLevel.NO_PRIZE :=
  check_result_655_spec.2.2.2.2.2.2.1 2 false (Or.inl (by norm_num))

/-! ## Cycle state machine (src/pipeline/cycle_manager.py, supabase_client.py) -/

/-- Cycle status column of `prediction_cycles`. -/
inductive CycleStatus where
  | active
  | completed
deriving Repr, DecidableEq

/-- One `prediction_cycles` row, restricted to the fields the cycle state
machine reads and writes.  Timestamps are abstracted as naturals. -/
structure CycleRow where
  mk ::
  draws_tracked : ℕ
  max_draws : ℕ
  status : CycleStatus
  completed_at : Option ℕ
deriving Repr, DecidableEq

/-- `advance_cycle` (cycle_manager.py lines 38-54) acting on the variant's
single tracked cycle: `increment_draws_tracked` (supabase_client.py lines
114-124) adds exactly 1 to `draws_tracked`; then `get_active_cycle` re-reads
the row (still active at that point, default `max_draws = 5` when no active
row exists); if the new count has reached `max_draws`, `complete_cycle`
(supabase_client.py lines 127-136) sets the status to completed and stamps
`completed_at` with the current time. -/
def advance_cycle (c : CycleRow) (now : ℕ) : CycleRow :=
  let updated := CycleRow.mk (c.draws_tracked + 1) c.max_draws c.status c.completed_at
  let maxD := if updated.status = CycleStatus.active then updated.max_draws else 5
  if maxD ≤ updated.draws_tracked then
    CycleRow.mk updated.draws_tracked updated.max_draws CycleStatus.completed (some now)
  else updated

/-- `advance_cycle` iterated `k` times (one call per checked draw). -/
def advanceTimes (c : CycleRow) (now : ℕ) : ℕ → CycleRow
  | 0 => c
  | Nat.succ k => advance_cycle (advanceTimes c now k) now

/-- C4: every call to `advance_cycle` increments `draws_tracked` by exactly 1;
starting from an active cycle with `max_draws = 5` and `draws_tracked = 0`,
the first four calls leave the status active with `draws_tracked = k`, and the
5th call transitions the status to completed and stamps the completion
timestamp, exactly when `draws_tracked` reaches `max_draws`. -/
theorem advance_cycle_completion (now : ℕ) :
    (∀ c t, (advance_cycle c t).draws_tracked = c.draws_tracked + 1) ∧
    (∀ k, k ≤ 4 →
        (advanceTimes (CycleRow.mk 0 5 CycleStatus.active none) now k).status =
            CycleStatus.active ∧
        (advanceTimes (CycleRow.mk 0 5 CycleStatus.active none) now k).draws_tracked = k) ∧
    (advanceTimes (CycleRow.mk 0 5 CycleStatus.active none) now 5).status =
        CycleStatus.completed ∧
    (advanceTimes (CycleRow.mk 0 5 CycleStatus.active none) now 5).draws_tracked = 5 ∧
    (advanceTimes (CycleRow.mk 0 5 CycleStatus.active none) now 5).completed_at = some now := by
  refine ⟨?_, ?_, ?_, ?_, ?_⟩
  · intro c t
    unfold advance_cycle
    dsimp only
    split <;> split <;> rfl
  · intro k hk
    interval_cases k <;> exact ⟨rfl, rfl⟩
  · rfl
  · rfl
  · rfl

/-- C4 witness: the active-prefix part applied at the 3rd call. -/
theorem advance_cycle_completion_witness :
    (advanceTimes (CycleRow.mk 0 5 CycleStatus.active none) 0 3).status =
        CycleStatus.active ∧
    (advanceTimes (CycleRow.mk 0 5 CycleStatus.active none) 0 3).draws_tracked = 3 :=
  (advance_cycle_completion 0).2.1 3 (by norm_num)

/-! ## Retrain evaluator (src/pipeline/retrain_evaluator.py) -/

/-- `WEIGHT_STEP` from retrain_evaluator.py (line 15). -/
def WEIGHT_STEP : ℚ := 5 / 100

/-- The evaluation summary assembled by `evaluate_and_retrain`, together with
the model weights as stored after the call. -/
structure RetrainOutcome where
  mk ::
  hit_3plus : ℕ
  hit_4plus : ℕ
  max_match : ℕ
  should_retrain : Bool
  weights : Weights
deriving Repr, DecidableEq

/-- `evaluate_and_retrain` (retrain_evaluator.py lines 20-112) as a pure
function of its inputs: the `matched_count` column of the match rows for the
cycle, the configured `min_draws_with_3plus_match` threshold, and the current
ensemble weights.  `hit_3plus`/`hit_4plus` count rows with at least 3/4
matches, `max_match` is `max(hit_counts)` (0 for no rows); retraining fires
exactly when `hit_3plus < threshold`, in which case `WEIGHT_STEP` is shifted
from the lstm weight to the xgboost weight with one-sided clamps and the
result renormalized by the total; otherwise the weights are untouched. -/
def evaluate_and_retrain (matched_counts : List ℕ) (min_hits_3plus : ℕ)
    (w : Weights) : RetrainOutcome :=
  let hit3 := (matched_counts.filter (fun c => decide (3 ≤ c))).length
  let hit4 := (matched_counts.filter (fun c => decide (4 ≤ c))).length
  let maxM := matched_counts.foldr max 0
  if hit3 < min_hits_3plus then
    let wl := max WEIGHT_MIN (w.lstm - WEIGHT_STEP)
    let wx := min WEIGHT_MAX (w.xgb + WEIGHT_STEP)
    let total := wl + wx + w.stat
    RetrainOutcome.mk hit3 hit4 maxM true
      (Weights.mk (wl / total) (wx / total) (w.stat / total))
  else
    RetrainOutcome.mk hit3 hit4 maxM false w

/-- C5: `evaluate_and_retrain` computes `hit_3plus` as the number of match
records with `matched_count ≥ 3` (likewise `hit_4plus`, and `max_match` as
the maximum count), retrains exactly when `hit_3plus` is strictly below the
threshold, leaves the weights untouched otherwise, and on retrain (when the
clamps do not bind and the incoming weights sum to 1) moves exactly
`WEIGHT_STEP` from the lstm weight to the xgboost weight; in the scenario
`hit_3plus = 1` against threshold 2 (default weights 0.40/0.35/0.25) it
retrains and the lstm weight decreases by exactly the step. -/
theorem evaluate_and_retrain_spec (matched_counts : List ℕ) (thr : ℕ) (w : Weights) :
    ((evaluate_and_retrain matched_counts thr w).hit_3plus =
        (matched_counts.filter (fun c => decide (3 ≤ c))).length ∧
      (evaluate_and_retrain matched_counts thr w).hit_4plus =
        (matched_counts.filter (fun c => decide (4 ≤ c))).length ∧
      (∀ c ∈ matched_counts, c ≤ (evaluate_and_retrain matched_counts thr w).max_match)) ∧
    ((evaluate_and_retrain matched_counts thr w).should_retrain = true ↔
      (matched_counts.filter (fun c => decide (3 ≤ c))).length < thr) ∧
    ((evaluate_and_retrain matched_counts thr w).should_retrain = false →
      (evaluate_and_retrain matched_counts thr w).weights = w) ∧
    ((evaluate_and_retrain matched_counts thr w).should_retrain = true →
      WEIGHT_MIN ≤ w.lstm - WEIGHT_STEP → w.xgb + WEIGHT_STEP ≤ WEIGHT_MAX →
      w.lstm + w.xgb + w.stat = 1 →
      (evaluate_and_retrain matched_counts thr w).weights =
        Weights.mk (w.lstm - WEIGHT_STEP) (w.xgb + WEIGHT_STEP) w.stat) ∧
    (evaluate_and_retrain [3, 0, 1, 2, 0] 2
        (Weights.mk (40 / 100) (35 / 100) (25 / 100)) =
      RetrainOutcome.mk 1 0 3 true
        (Weights.mk (40 / 100 - WEIGHT_STEP) (35 / 100 + WEIGHT_STEP) (25 / 100))) := by
  refine ⟨⟨?_, ?_, ?_⟩, ?_, ?_, ?_, ?_⟩
  · unfold evaluate_and_retrain; dsimp only; split <;> rfl
  · unfold evaluate_and_retrain; dsimp only; split <;> rfl
  · intro c hc
    have hmax : ∀ l : List ℕ, ∀ x ∈ l, x ≤ l.foldr max 0 := by
      intro l
      induction l with
      | nil => intro x hx; cases hx
      | cons y ys ih =>
          intro x hx
          rcases List.mem_cons.mp hx with h | h
          · subst h; exact le_max_left _ _
          · exact le_trans (ih x h) (le_max_right _ _)
    have hfold : (evaluate_and_retrain matched_counts thr w).max_match =
        matched_counts.foldr max 0 := by
      unfold evaluate_and_retrain; dsimp only; split <;> rfl
    rw [hfold]
    exact hmax matched_counts c hc
  · unfold evaluate_and_retrain; dsimp only
    split
    · simp only [true_iff]; assumption
    · simp only [Bool.false_eq_true, false_iff]; omega
  · unfold evaluate_and_retrain; dsimp only
    split
    · intro h; cases h
    · intro _; rfl
  · unfold evaluate_and_retrain; dsimp only
    split
    · intro _ hlo hhi hsum
      have hwl : max WEIGHT_MIN (w.lstm - WEIGHT_STEP) = w.lstm - WEIGHT_STEP :=
        max_eq_right hlo
      have hwx : min WEIGHT_MAX (w.xgb + WEIGHT_STEP) = w.xgb + WEIGHT_STEP :=
        min_eq_right hhi
      rw [hwl, hwx]
      have htot : w.lstm - WEIGHT_STEP + (w.xgb + WEIGHT_STEP) + w.stat = 1 := by
        linarith
      rw [htot]
      simp
    · intro h; cases h
  · have h3 : (([3, 0, 1, 2, 0] : List ℕ).filter (fun c => decide (3 ≤ c))).length = 1 := by
      decide
    have h4 : (([3, 0, 1, 2, 0] : List ℕ).filter (fun c => decide (4 ≤ c))).length = 0 := by
      decide
    have hm : ([3, 0, 1, 2, 0] : List ℕ).foldr max 0 = 3 := by decide
    unfold evaluate_and_retrain
    rw [h3, h4, hm]
    norm_num [RetrainOutcome.mk.injEq, Weights.mk.injEq, WEIGHT_MIN, WEIGHT_MAX,
      WEIGHT_STEP, max_def, min_def]

/-- C5 witness: the scenario `hit_3plus = 1 < 2` with the default weights,
instantiating the exact-step clause. -/
theorem evaluate_and_retrain_spec_witness :
    (evaluate_and_retrain [3, 0, 1, 2, 0] 2
        (Weights.mk (40 / 100) (35 / 100) (25 / 100))).weights =
      Weights.mk (40 / 100 - WEIGHT_STEP) (35 / 100 + WEIGHT_STEP) (25 / 100) :=
  (evaluate_and_retrain_spec [3, 0, 1, 2, 0] 2
      (Weights.mk (40 / 100) (35 / 100) (25 / 100))).2.2.2.1
    (by
      unfold evaluate_and_retrain
      norm_num)
    (by norm_num [WEIGHT_MIN, WEIGHT_STEP])
    (by norm_num [WEIGHT_MAX, WEIGHT_STEP])
    (by norm_num)

/-! ## Cycle creation (src/pipeline/cycle_manager.py, supabase_client.py) -/

/-- One `prediction_cycles` row as seen by `get_or_create_cycle`, with the
`matched_count` column of its `match_results` rows joined inline (the code
reads them through `get_match_results_for_cycle`). -/
structure StoredCycle where
  mk ::
  cycle_number : ℕ
  status : CycleStatus
  draws_tracked : ℕ
  max_draws : ℕ
  matched_counts : List ℕ
deriving Repr, DecidableEq

/-- `get_active_cycle` (supabase_client.py lines 72-82): the variant's row
with status active, if any. -/
def get_active_cycle (s : List StoredCycle) : Option StoredCycle :=
  s.find? (fun c => decide (c.status = CycleStatus.active))

/-- `get_next_cycle_number` (supabase_client.py lines 139-151): highest
existing cycle number plus one, or 1 when the table is empty. -/
def get_next_cycle_number (s : List StoredCycle) : ℕ :=
  if s.isEmpty then 1 else (s.map (fun c => c.cycle_number)).foldr max 0 + 1

/-- `get_cycle_by_number` (supabase_client.py lines 84-94). -/
def get_cycle_by_number (s : List StoredCycle) (k : ℕ) : Option StoredCycle :=
  s.find? (fun c => decide (c.cycle_number = k))

/-- `sum(1 for row in match_rows if row.get("matched_count", 0) >= 3)` from
cycle_manager.py line 29. -/
def hit_3plus_of (rows : List ℕ) : ℕ := (rows.filter (fun c => decide (3 ≤ c))).length

/-- `get_or_create_cycle` (cycle_manager.py lines 13-35): return the active
cycle unchanged when one exists; otherwise create a cycle numbered
`get_next_cycle_number`, with `max_draws = 5` by default, or 3 when the
cycle numbered one lower exists and none of its match rows reached 3
matched numbers. -/
def get_or_create_cycle (s : List StoredCycle) : StoredCycle :=
  match get_active_cycle s with
  | some cycle => cycle
  | none =>
    let cycle_number := get_next_cycle_number s
    let max_draws :=
      if 1 < cycle_number then
        match get_cycle_by_number s (cycle_number - 1) with
        | some prev => if 1 ≤ hit_3plus_of prev.matched_counts then 5 else 3
        | none => 5
      else 5
    StoredCycle.mk cycle_number CycleStatus.active 0 max_draws []

/-- C7: `get_or_create_cycle` returns the existing active cycle unchanged
when one exists; otherwise it creates a fresh active cycle numbered previous
max + 1 (1 when no cycle exists yet) with `draws_tracked = 0`, and
`max_draws` is 5 by default, shortened to 3 exactly when the immediately
preceding cycle (the one numbered one lower) exists and recorded zero draws
with `matched_count ≥ 3`. -/
theorem get_or_create_cycle_spec (s : List StoredCycle) :
    (∀ c, get_active_cycle s = some c → get_or_create_cycle s = c) ∧
    (get_active_cycle s = none →
      (get_or_create_cycle s).status = CycleStatus.active ∧
      (get_or_create_cycle s).draws_tracked = 0 ∧
      (get_or_create_cycle s).cycle_number = get_next_cycle_number s ∧
      (s = [] → (get_or_create_cycle s).cycle_number = 1) ∧
      ((get_or_create_cycle s).max_draws = 3 ∨ (get_or_create_cycle s).max_draws = 5) ∧
      ((get_or_create_cycle s).max_draws = 3 ↔
        (1 < get_next_cycle_number s ∧
          ∃ prev, get_cycle_by_number s (get_next_cycle_number s - 1) = some prev ∧
            hit_3plus_of prev.matched_counts = 0))) := by
  constructor
  · intro c hc
    unfold get_or_create_cycle
    rw [hc]
  · intro hnone
    unfold get_or_create_cycle
    rw [hnone]
    dsimp only
    refine ⟨rfl, rfl, rfl, ?_, ?_, ?_⟩
    · intro hs; subst hs; rfl
    · split
      · split
        · split <;> simp
        · simp
      · simp
    · constructor
      · intro h3
        constructor
        · by_contra hlt
          rw [if_neg hlt] at h3
          cases h3
        · rcases hgt : decide (1 < get_next_cycle_number s) with _ | _
          · have : ¬ 1 < get_next_cycle_number s := of_decide_eq_false hgt
            rw [if_neg this] at h3
            cases h3
          · have hgt2 : 1 < get_next_cycle_number s := of_decide_eq_true hgt
            rw [if_pos hgt2] at h3
            rcases hprev : get_cycle_by_number s (get_next_cycle_number s - 1) with _ | prev
            · rw [hprev] at h3; cases h3
            · rw [hprev] at h3
              dsimp only at h3
              refine ⟨prev, rfl, ?_⟩
              by_contra hne
              have hge : 1 ≤ hit_3plus_of prev.matched_counts := by omega
              rw [if_pos hge] at h3
              cases h3
      · rintro ⟨hgt, prev, hprev, hzero⟩
        rw [if_pos hgt, hprev]
        dsimp only
        have : ¬ 1 ≤ hit_3plus_of prev.matched_counts := by omega
        rw [if_neg this]

/-- C7 witness: a store whose single cycle is completed with no 3-plus
matches; the created cycle is numbered 2 and shortened to 3 draws. -/
theorem get_or_create_cycle_spec_witness :
    (get_or_create_cycle [StoredCycle.mk 1 CycleStatus.completed 5 5 [0, 1, 2, 0, 1]]).max_draws
      = 3 :=
  ((get_or_create_cycle_spec [StoredCycle.mk 1 CycleStatus.completed 5 5 [0, 1, 2, 0, 1]]).2
      (by decide)).2.2.2.2.2.mpr
    ⟨by decide, StoredCycle.mk 1 CycleStatus.completed 5 5 [0, 1, 2, 0, 1], by decide, by decide⟩

/-! ## Special number pick (src/pipeline/prediction_generator.py) -/

/-- `range(lo, hi + 1)` as an ascending list. -/
def specialRange (lo hi : ℕ) : List ℕ :=
  (List.range (hi + 1 - lo)).map (fun i => lo + i)

/-- The special-number collision adjustment in `generate_prediction`
(prediction_generator.py lines 77-84): when the candidate special number
collides with one of the chosen main numbers, scan `range(lo, hi + 1)` in
order and replace the candidate with the first value not among the picks;
when no such value exists the candidate is left unchanged. -/
def pick_special_adjust (candidate : ℕ) (numbers : List ℕ) (lo hi : ℕ) : ℕ :=
  if candidate ∈ numbers then
    match (specialRange lo hi).find? (fun a => decide (a ∉ numbers)) with
    | some alt => alt
    | none => candidate
  else candidate

lemma specialRange_sorted (lo hi : ℕ) : (specialRange lo hi).Sorted (· ≤ ·) := by
  unfold specialRange
  refine List.Pairwise.map _ ?_ (List.pairwise_lt_range _)
  intro a b hab
  omega

lemma find?_sorted_least {l : List ℕ} {p : ℕ → Bool} {x : ℕ}
    (hs : l.Sorted (· ≤ ·)) (hf : l.find? p = some x) :
    ∀ y ∈ l, p y = true → x ≤ y := by
  induction l with
  | nil => cases hf
  | cons a t ih =>
      intro y hy hpy
      rw [List.find?_cons] at hf
      rcases hpa : p a with _ | _
      · rw [hpa] at hf
        rcases List.mem_cons.mp hy with h | h
        · subst h; rw [hpy] at hpa; cases hpa
        · exact ih hs.of_cons hf y h hpy
      · rw [hpa] at hf
        injection hf with hfx
        subst hfx
        rcases List.mem_cons.mp hy with h | h
        · subst h; exact le_rfl
        · exact (List.sorted_cons.mp hs).1 y h

/-- C10: whenever the special range contains at least one value outside the
chosen main numbers, the special number returned by the adjustment step of
`generate_prediction` is never one of the main numbers; and when the
original candidate collides, it is replaced by the lowest in-range value not
among the picks. -/
theorem pick_special_adjust_spec (candidate : ℕ) (numbers : List ℕ) (lo hi v : ℕ)
    (hv : v ∈ specialRange lo hi) (hvn : v ∉ numbers) :
    pick_special_adjust candidate numbers lo hi ∉ numbers ∧
    (candidate ∈ numbers →
      pick_special_adjust candidate numbers lo hi ∈ specialRange lo hi ∧
      ∀ w ∈ specialRange lo hi, w ∉ numbers →
        pick_special_adjust candidate numbers lo hi ≤ w) := by
  unfold pick_special_adjust
  by_cases hc : candidate ∈ numbers
  · rw [if_pos hc]
    rcases hf : (specialRange lo hi).find? (fun a => decide (a ∉ numbers)) with _ | alt
    · exfalso
      rw [List.find?_eq_none] at hf
      exact hf v hv (by simpa using hvn)
    · have halt : alt ∉ numbers := by
        have := List.find?_some hf
        simpa using this
      refine ⟨halt, fun _ => ⟨List.mem_of_find?_eq_some hf, ?_⟩⟩
      intro w hw hwn
      exact find?_sorted_least (specialRange_sorted lo hi) hf w hw (by simpa using hwn)
  · rw [if_neg hc]
    exact ⟨hc, fun h => absurd h hc⟩

/-- C10 witness: for the 5/35 variant layout, candidate special 3 collides
with the picks `[3, 7, 12, 20, 31]` and is replaced by 1, the lowest value
of `range(1, 13)` not among the picks. -/
theorem pick_special_adjust_spec_witness :
    pick_special_adjust 3 [3, 7, 12, 20, 31] 1 12 ∉ [3, 7, 12, 20, 31] ∧
    ((3 : ℕ) ∈ [3, 7, 12, 20, 31] →
      pick_special_adjust 3 [3, 7, 12, 20, 31] 1 12 ∈ specialRange 1 12 ∧
      ∀ w ∈ specialRange 1 12, w ∉ [3, 7, 12, 20, 31] →
        pick_special_adjust 3 [3, 7, 12, 20, 31] 1 12 ≤ w) :=
  pick_special_adjust_spec 3 [3, 7, 12, 20, 31] 1 12 1 (by decide) (by decide)

/-! ## Position-bias analyzer (src/models/statistical/position_bias.py) -/

/-- `PositionBiasAnalyzer`: the number range and the ordered zone bands
(`{"low": [1, 18], "mid": [19, 36], "high": [37, 55]}`); a Python dict
preserves insertion order, so the bands are a list. -/
structure PositionBiasAnalyzer where
  mk ::
  lo : ℕ
  hi : ℕ
  bands : List (String × ℕ × ℕ)
deriving Repr, DecidableEq

/-- `get_zone` (position_bias.py lines 24-28): the first band whose bounds
contain the number, if any. -/
def PositionBiasAnalyzer.get_zone (p : PositionBiasAnalyzer) (num : ℕ) : Option String :=
  (p.bands.find? (fun b => decide (b.2.1 ≤ num ∧ num ≤ b.2.2))).map (fun b => b.1)

/-- The per-zone selection loop of `pick_balanced` (position_bias.py lines
77-81): from each zone's candidate group in turn, take
`target_per_zone + (1 if remainder > 0 else 0)` entries, decrementing the
remainder after each zone. -/
def zoneTakes : List (List ℕ) → ℕ → ℕ → List ℕ
  | [], _, _ => []
  | g :: gs, target, rem =>
      g.take (target + (if 0 < rem then 1 else 0)) ++ zoneTakes gs target (rem - 1)

/-- The back-fill loop of `pick_balanced` (position_bias.py lines 84-88):
while fewer than `n` entries are selected, append the first candidate not yet
selected.  The Python `while` loop never runs more than `n` times when it
terminates, so fuel `n` is an exact model on terminating inputs; on inputs
where Python would loop forever (no unselected candidate left) the loop stops
and returns the partial selection. -/
def fillLoop (candidates : List ℕ) (n : ℕ) : ℕ → List ℕ → List ℕ
  | 0, selected => selected
  | Nat.succ fuel, selected =>
      if selected.length < n then
        match candidates.find? (fun c => decide (c ∉ selected)) with
        | some c => fillLoop candidates n fuel (selected ++ [c])
        | none => selected
      else selected

/-- `pick_balanced` (position_bias.py lines 63-90): group the candidates by
zone (in candidate order), take each zone's share with the remainder going to
the zones in enumeration order, back-fill with the first not-yet-selected
candidates, truncate to `n` and sort ascending.  (When `bands` is empty the
Python code raises ZeroDivisionError at `n // len(self.bands)`; the theorems
below assume a nonempty band list.) -/
def PositionBiasAnalyzer.pick_balanced (p : PositionBiasAnalyzer)
    (candidates : List ℕ) (n : ℕ) : List ℕ :=
  let target_per_zone := n / p.bands.length
  let remainder := n % p.bands.length
  let grouped := p.bands.map
    (fun b => candidates.filter (fun num => decide (p.get_zone num = some b.1)))
  let selected := zoneTakes grouped target_per_zone remainder
  let filled := fillLoop candidates n n selected
  List.insertionSort (· ≤ ·) (filled.take n)

/-- A one-zone analyzer used for the C2 counterexample. -/
def pbOneZone : PositionBiasAnalyzer :=
  PositionBiasAnalyzer.mk 1 35 [("low", 1, 35)]

/-- C2 (counterexample): the candidate list `[1, 1, 2]` contains 2 distinct
members (1 and 2) that both map to the single zone, yet
`pick_balanced([1,1,2], 2)` returns `[1, 1]` — not 2 distinct values — because
the per-zone take keeps duplicate candidate entries. -/
theorem pick_balanced_counterexample :
    pbOneZone.pick_balanced [1, 1, 2] 2 = [1, 1] ∧
      ¬ (pbOneZone.pick_balanced [1, 1, 2] 2).Nodup := by
  constructor
  · decide
  · decide

lemma zoneTakes_subset {gs : List (List ℕ)} {t r x : ℕ}
    (hx : x ∈ zoneTakes gs t r) : ∃ g ∈ gs, x ∈ g := by
  induction gs generalizing r with
  | nil => cases hx
  | cons g gs ih =>
      unfold zoneTakes at hx
      rcases List.mem_append.mp hx with h | h
      · exact ⟨g, List.mem_cons_self _ _, List.mem_of_mem_take h⟩
      · obtain ⟨g2, hg2, hxg2⟩ := ih h
        exact ⟨g2, List.mem_cons_of_mem _ hg2, hxg2⟩

lemma zoneTakes_nodup {gs : List (List ℕ)} (hnd : ∀ g ∈ gs, g.Nodup)
    (hdisj : gs.Pairwise List.Disjoint) :
    ∀ t r, (zoneTakes gs t r).Nodup := by
  induction gs with
  | nil => intro t r; exact List.nodup_nil
  | cons g gs ih =>
      intro t r
      unfold zoneTakes
      rw [List.nodup_append]
      refine ⟨(hnd g (List.mem_cons_self _ _)).sublist (List.take_sublist _ _),
        ih (fun g2 hg2 => hnd g2 (List.mem_cons_of_mem _ hg2)) hdisj.of_cons _ _, ?_⟩
      intro x hx hx2
      obtain ⟨g2, hg2, hxg2⟩ := zoneTakes_subset hx2
      exact (List.pairwise_cons.mp hdisj).1 g2 hg2 (List.mem_of_mem_take hx) hxg2

lemma fillLoop_spec (candidates : List ℕ) (n : ℕ) (hnd : candidates.Nodup)
    (hlen : n ≤ candidates.length) :
    ∀ fuel selected, selected.Nodup → (∀ x ∈ selected, x ∈ candidates) →
      n ≤ selected.length + fuel →
      (fillLoop candidates n fuel selected).Nodup ∧
      (∀ x ∈ fillLoop candidates n fuel selected, x ∈ candidates) ∧
      n ≤ (fillLoop candidates n fuel selected).length := by
  intro fuel
  induction fuel with
  | zero =>
      intro selected hsn hsc hcount
      unfold fillLoop
      exact ⟨hsn, hsc, by omega⟩
  | succ fuel ih =>
      intro selected hsn hsc hcount
      unfold fillLoop
      by_cases hlt : selected.length < n
      · rw [if_pos hlt]
        rcases hf : candidates.find? (fun c => decide (c ∉ selected)) with _ | c
        · exfalso
          rw [List.find?_eq_none] at hf
          have hsub : ∀ x ∈ candidates, x ∈ selected := by
            intro x hx
            have := hf x hx
            simpa using this
          have hcard : candidates.length ≤ selected.length := by
            calc candidates.length = candidates.toFinset.card :=
                  (List.toFinset_card_of_nodup hnd).symm
              _ ≤ selected.toFinset.card := by
                  apply Finset.card_le_card
                  intro x hx
                  rw [List.mem_toFinset] at hx ⊢
                  exact hsub x hx
              _ ≤ selected.length := selected.toFinset_card_le
          omega
        · have hc : c ∉ selected := by
            have := List.find?_some hf
            simpa using this
          have hcand : c ∈ candidates := List.mem_of_find?_eq_some hf
          apply ih (selected ++ [c])
          · rw [List.nodup_append]
            exact ⟨hsn, List.nodup_singleton c, by
              intro x hx hx2
              rw [List.mem_singleton] at hx2
              subst hx2
              exact hc hx⟩
          · intro x hx
            rcases List.mem_append.mp hx with h | h
            · exact hsc x h
            · rw [List.mem_singleton] at h; subst h; exact hcand
          · rw [List.length_append, List.length_singleton]
            omega
      · rw [if_neg hlt]
        exact ⟨hsn, hsc, by omega⟩

/-- C2 (amended): for every duplicate-free candidate list with at least `n`
members, `pick_balanced(candidates, n)` terminates and returns exactly `n`
distinct values, every one drawn from `candidates`, sorted ascending, where
the selection takes each zone's share of `⌊n / zone_count⌋` (remainder to the
zones in enumeration order, duplicate-free zone names as in a Python dict)
and back-fills shortfalls with the first not-yet-selected candidates in input
order.  (The unamended claim, which also admits candidate lists containing
duplicate entries of at least `n` distinct members, is refuted by
`pick_balanced_counterexample`.) -/
theorem pick_balanced_spec (p : PositionBiasAnalyzer) (candidates : List ℕ) (n : ℕ)
    (hbands : p.bands ≠ [])
    (hnames : (p.bands.map (fun b => b.1)).Nodup)
    (hnd : candidates.Nodup) (hlen : n ≤ candidates.length) :
    (p.pick_balanced candidates n).length = n ∧
    (p.pick_balanced candidates n).Nodup ∧
    (∀ x ∈ p.pick_balanced candidates n, x ∈ candidates) ∧
    (p.pick_balanced candidates n).Sorted (· ≤ ·) := by
  unfold PositionBiasAnalyzer.pick_balanced
  set grouped := p.bands.map
    (fun b => candidates.filter (fun num => decide (p.get_zone num = some b.1)))
    with hgrouped
  set selected := zoneTakes grouped (n / p.bands.length) (n % p.bands.length)
    with hselected
  have hgnd : ∀ g ∈ grouped, g.Nodup := by
    intro g hg
    rw [hgrouped, List.mem_map] at hg
    obtain ⟨b, _, hb⟩ := hg
    subst hb
    exact hnd.filter _
  have hgdisj : grouped.Pairwise List.Disjoint := by
    rw [hgrouped, List.pairwise_map]
    have hnp : p.bands.Pairwise (fun b b2 => b.1 ≠ b2.1) :=
      List.pairwise_map.mp hnames
    refine hnp.imp ?_
    intro b b2 hne x hx hx2
    rw [List.mem_filter, decide_eq_true_eq] at hx hx2
    exact hne (Option.some.inj (hx.2.symm.trans hx2.2))
  have hsnd : selected.Nodup := zoneTakes_nodup hgnd hgdisj _ _
  have hssub : ∀ x ∈ selected, x ∈ candidates := by
    intro x hx
    obtain ⟨g, hg, hxg⟩ := zoneTakes_subset hx
    rw [hgrouped, List.mem_map] at hg
    obtain ⟨b, _, hb⟩ := hg
    subst hb
    exact List.mem_of_mem_filter hxg
  obtain ⟨hfn, hfc, hflen⟩ := fillLoop_spec candidates n hnd hlen n selected hsnd hssub
    (by omega)
  set filled := fillLoop candidates n n selected with hfilled
  have hperm := List.perm_insertionSort (α := ℕ) (· ≤ ·) (filled.take n)
  refine ⟨?_, ?_, ?_, List.sorted_insertionSort _ _⟩
  · rw [hperm.length_eq, List.length_take]
    omega
  · exact hperm.nodup_iff.mpr (hfn.sublist (List.take_sublist _ _))
  · intro x hx
    rw [hperm.mem_iff] at hx
    exact hfc x (List.mem_of_mem_take hx)

/-- C2 witness: the three-zone Power 6/55 layout picking 6 from the first
twelve candidates in a mixed ranking order. -/
theorem pick_balanced_spec_witness :
    ((PositionBiasAnalyzer.mk 1 55
        [("low", 1, 18), ("mid", 19, 36), ("high", 37, 55)]).pick_balanced
          [7, 40, 19, 2, 55, 23, 11, 37, 30, 5, 44, 28] 6).length = 6 ∧
    ((PositionBiasAnalyzer.mk 1 55
        [("low", 1, 18), ("mid", 19, 36), ("high", 37, 55)]).pick_balanced
          [7, 40, 19, 2, 55, 23, 11, 37, 30, 5, 44, 28] 6).Nodup :=
  have h := pick_balanced_spec
    (PositionBiasAnalyzer.mk 1 55 [("low", 1, 18), ("mid", 19, 36), ("high", 37, 55)])
    [7, 40, 19, 2, 55, 23, 11, 37, 30, 5, 44, 28] 6
    (by decide) (by decide) (by decide) (by decide)
  ⟨h.1, h.2.1⟩

/-! ## Statistical analyzers: frequency and gap
(src/models/statistical/frequency_analyzer.py, gap_analyzer.py) -/

/-- `range(lo, hi + 1)`: the key order of every score dict. -/
def rangeList (lo hi : ℕ) : List ℕ :=
  (List.range (hi + 1 - lo)).map (fun i => lo + i)

/-- The shared tail of all three `get_scores` methods:
`max_score = max(scores.values()) or 1.0` followed by
`{n: v / max_score for n, v in scores.items()}`.  `none` models the
ValueError Python raises applying `max` to an empty dict. -/
def normalizeScores (l : List (ℕ × ℚ)) : Option (List (ℕ × ℚ)) :=
  match (l.map Prod.snd).max? with
  | none => none
  | some m =>
      let max_score := if m = 0 then 1 else m
      some (l.map (fun q => (q.1, q.2 / max_score)))

/-- `FrequencyAnalyzer` configuration (frequency_analyzer.py lines 13-16). -/
structure FrequencyAnalyzer where
  mk ::
  lo : ℕ
  hi : ℕ
  window : ℕ
  weight_recency : ℚ
deriving Repr, DecidableEq

/-- `FrequencyAnalyzer.get_scores` (frequency_analyzer.py lines 18-39): over
the `window` most recent draws, each occurrence of a number adds
`weight_recency ** draw_idx`; uniform score 1.0 on an empty window; otherwise
max-normalized.  (The `lo <= num <= hi` guard in the source only filters
numbers outside the key range, so per in-range key the raw score is the
occurrence-weighted sum below.) -/
def FrequencyAnalyzer.get_scores (a : FrequencyAnalyzer) (history : List (List ℕ)) :
    Option (List (ℕ × ℚ)) :=
  let recent := history.take a.window
  if recent.isEmpty then
    some ((rangeList a.lo a.hi).map (fun n => (n, (1 : ℚ))))
  else
    normalizeScores ((rangeList a.lo a.hi).map (fun n =>
      (n, (recent.enum.map
            (fun di => a.weight_recency ^ di.1 * (di.2.count n : ℚ))).sum)))

/-- `GapAnalyzer` configuration (gap_analyzer.py lines 12-14). -/
structure GapAnalyzer where
  mk ::
  lo : ℕ
  hi : ℕ
  window : ℕ
deriving Repr, DecidableEq

/-- The inner loop of `get_gaps` for one number: index of the most recent
windowed draw containing it, or `window + 1` if absent. -/
def GapAnalyzer.gapValue (a : GapAnalyzer) (history : List (List ℕ)) (n : ℕ) : ℕ :=
  match (history.take a.window).findIdx? (fun draw => decide (n ∈ draw)) with
  | some idx => idx
  | none => a.window + 1

/-- `GapAnalyzer.get_gaps` (gap_analyzer.py lines 16-32). -/
def GapAnalyzer.get_gaps (a : GapAnalyzer) (history : List (List ℕ)) : List (ℕ × ℕ) :=
  (rangeList a.lo a.hi).map (fun n => (n, a.gapValue history n))

/-- `GapAnalyzer.get_scores` (gap_analyzer.py lines 34-44): each gap divided
by the average gap, then max-normalized.  `none` models the
ZeroDivisionError raised at `g / avg_gap` when the average gap is zero with
a nonempty key range (every number appears in the most recent draw), and the
ValueError from `max` of an empty dict when the key range is empty. -/
def GapAnalyzer.get_scores (a : GapAnalyzer) (history : List (List ℕ)) :
    Option (List (ℕ × ℚ)) :=
  let gaps := a.get_gaps history
  let avg_gap : ℚ :=
    if gaps.length ≠ 0 then ((gaps.map (fun g => (g.2 : ℚ))).sum) / gaps.length else 1
  if gaps.length ≠ 0 ∧ avg_gap = 0 then none
  else normalizeScores (gaps.map (fun g => (g.1, (g.2 : ℚ) / avg_gap)))

/-- `PositionBiasAnalyzer.get_zone_distribution` (position_bias.py lines
30-43): fraction of zone-mapped picks per zone; the uniform `1/len(bands)`
fallback when no pick maps to a zone.  `none` models the ZeroDivisionError
at `1.0 / len(self.bands)` when the band list is empty (in that case no pick
maps to a zone, so the zero-total branch is always the one reached). -/
def PositionBiasAnalyzer.get_zone_distribution (p : PositionBiasAnalyzer)
    (history : List (List ℕ)) : Option (List (String × ℚ)) :=
  if p.bands.isEmpty then none
  else
    let total := (history.map
      (fun draw => (draw.filter (fun num => (p.get_zone num).isSome)).length)).sum
    if total = 0 then
      some (p.bands.map (fun b => (b.1, 1 / (p.bands.length : ℚ))))
    else
      some (p.bands.map (fun b => (b.1,
        (((history.map (fun draw =>
            (draw.filter (fun num => decide (p.get_zone num = some b.1))).length)).sum : ℚ)
          / (total : ℚ)))))

/-- `PositionBiasAnalyzer.get_scores` (position_bias.py lines 45-61):
`max(0, even - dist[zone]) + 0.01` per zone, `0.01` for numbers outside every
zone, max-normalized.  `none` models the ZeroDivisionError on an empty band
list and the ValueError from `max` of an empty dict on an empty key range. -/
def PositionBiasAnalyzer.get_scores (p : PositionBiasAnalyzer)
    (history : List (List ℕ)) : Option (List (ℕ × ℚ)) :=
  match p.get_zone_distribution history with
  | none => none
  | some dist =>
      let even : ℚ := 1 / (p.bands.length : ℚ)
      let zone_score := p.bands.map (fun b =>
        (b.1, max 0 (even - (((dist.find? (fun d => decide (d.1 = b.1))).map
            Prod.snd).getD 0)) + 1 / 100))
      normalizeScores ((rangeList p.lo p.hi).map (fun n =>
        (n, ((zone_score.find? (fun z => decide (some z.1 = p.get_zone n))).map
              Prod.snd).getD (1 / 100))))

lemma rat_max?_eq_some_iff {l : List ℚ} {a : ℚ} :
    l.max? = some a ↔ a ∈ l ∧ ∀ b ∈ l, b ≤ a := by
  haveI anti : Std.Antisymm (α := ℚ) (· ≤ ·) :=
    ⟨by intro a b h h2; exact le_antisymm h h2⟩
  exact List.max?_eq_some_iff (fun a => le_refl a) (fun a b => max_choice a b)
    (fun a b c => max_le_iff)

/-- The three invariants claimed of every analyzer score map: key list exactly
`range(lo, hi + 1)`, all values in `[0, 1]`, some value equal to 1. -/
def scoreMapOk (lo hi : ℕ) (out : List (ℕ × ℚ)) : Prop :=
  out.map Prod.fst = rangeList lo hi ∧
  (∀ q ∈ out, 0 ≤ q.2 ∧ q.2 ≤ 1) ∧
  ∃ q ∈ out, q.2 = 1

lemma normalizeScores_spec {l : List (ℕ × ℚ)}
    (hnn : ∀ q ∈ l, 0 ≤ q.2) (hpos : ∃ q ∈ l, 0 < q.2) :
    ∃ out, normalizeScores l = some out ∧
      out.map Prod.fst = l.map Prod.fst ∧
      (∀ q ∈ out, 0 ≤ q.2 ∧ q.2 ≤ 1) ∧
      ∃ q ∈ out, q.2 = 1 := by
  obtain ⟨q0, hq0, hq0pos⟩ := hpos
  rcases hm : (l.map Prod.snd).max? with _ | m
  · rw [List.max?_eq_none_iff] at hm
    rw [List.map_eq_nil_iff] at hm
    subst hm
    cases hq0
  · obtain ⟨hmem, hmax⟩ := rat_max?_eq_some_iff.mp hm
    have hq0m : q0.2 ≤ m := hmax q0.2 (List.mem_map_of_mem _ hq0)
    have hmpos : 0 < m := lt_of_lt_of_le hq0pos hq0m
    obtain ⟨q1, hq1, hq1m⟩ := List.mem_map.mp hmem
    refine ⟨l.map (fun q => (q.1, q.2 / m)), ?_, ?_, ?_, ?_⟩
    · unfold normalizeScores
      rw [hm]
      dsimp only
      rw [if_neg (ne_of_gt hmpos)]
    · simp
    · intro q hq
      obtain ⟨q2, hq2, hq2e⟩ := List.mem_map.mp hq
      subst hq2e
      dsimp only
      constructor
      · exact div_nonneg (hnn q2 hq2) hmpos.le
      · rw [div_le_one hmpos]
        exact hmax q2.2 (List.mem_map_of_mem _ hq2)
    · refine ⟨(q1.1, q1.2 / m), List.mem_map_of_mem _ hq1, ?_⟩
      dsimp only
      rw [hq1m, div_self (ne_of_gt hmpos)]

lemma map_pair_fst {β : Type} (l : List ℕ) (f : ℕ → β) :
    List.map (Prod.fst ∘ fun n => (n, f n)) l = l := by
  induction l with
  | nil => rfl
  | cons a t ih => simpa using ih

lemma rangeList_ne_nil {lo hi : ℕ} (h : lo ≤ hi) : rangeList lo hi ≠ [] := by
  unfold rangeList
  intro hc
  rw [List.map_eq_nil, List.range_eq_nil] at hc
  omega

lemma mem_rangeList {lo hi n : ℕ} : n ∈ rangeList lo hi ↔ lo ≤ n ∧ n ≤ hi := by
  unfold rangeList
  simp only [List.mem_map, List.mem_range]
  constructor
  · rintro ⟨i, hi2, rfl⟩; omega
  · rintro ⟨h1, h2⟩; exact ⟨n - lo, by omega, by omega⟩

lemma freq_scores_spec (a : FrequencyAnalyzer) (history : List (List ℕ))
    (hlh : a.lo ≤ a.hi) (hγ : 0 < a.weight_recency)
    (hdr : ∀ d ∈ history, d ≠ [] ∧ ∀ m ∈ d, a.lo ≤ m ∧ m ≤ a.hi) :
    ∃ out, a.get_scores history = some out ∧ scoreMapOk a.lo a.hi out := by
  unfold FrequencyAnalyzer.get_scores
  rcases hr : history.take a.window with _ | ⟨d0, rest⟩
  · dsimp only
    rw [List.isEmpty_nil, if_pos rfl]
    refine ⟨_, rfl, ?_, ?_, ?_⟩
    · rw [List.map_map]
      exact map_pair_fst _ _
    · intro q hq
      obtain ⟨n, _, hn⟩ := List.mem_map.mp hq
      subst hn
      norm_num
    · obtain ⟨n, hn⟩ := List.exists_mem_of_ne_nil _ (rangeList_ne_nil hlh)
      exact ⟨(n, 1), List.mem_map_of_mem _ hn, rfl⟩
  · dsimp only
    rw [List.isEmpty_cons, if_neg (by simp)]
    have hd0 : d0 ∈ history :=
      (List.take_sublist a.window history).subset (hr ▸ List.mem_cons_self d0 rest)
    obtain ⟨hd0ne, hd0mem⟩ := hdr d0 hd0
    obtain ⟨m0, hm0⟩ := List.exists_mem_of_ne_nil _ hd0ne
    have hterm_nonneg : ∀ (l : List (ℕ × List ℕ)) (q : ℚ),
        q ∈ l.map (fun di => a.weight_recency ^ di.1 * (di.2.count m0 : ℚ)) → 0 ≤ q := by
      intro l q hq
      obtain ⟨di, _, hdi⟩ := List.mem_map.mp hq
      subst hdi
      exact mul_nonneg (pow_nonneg hγ.le _) (Nat.cast_nonneg _)
    have hok := normalizeScores_spec
      (l := (rangeList a.lo a.hi).map (fun n =>
        (n, ((d0 :: rest).enum.map
          (fun di => a.weight_recency ^ di.1 * (di.2.count n : ℚ))).sum)))
      (by
        intro q hq
        obtain ⟨n, _, hn⟩ := List.mem_map.mp hq
        subst hn
        dsimp only
        apply List.sum_nonneg
        intro q2 hq2
        obtain ⟨di, _, hdi⟩ := List.mem_map.mp hq2
        subst hdi
        exact mul_nonneg (pow_nonneg hγ.le _) (Nat.cast_nonneg _))
      (by
        refine ⟨(m0, ((d0 :: rest).enum.map
          (fun di => a.weight_recency ^ di.1 * (di.2.count m0 : ℚ))).sum),
          List.mem_map_of_mem _ (mem_rangeList.mpr (hd0mem m0 hm0)), ?_⟩
        dsimp only
        have hfirst : a.weight_recency ^ (0 : ℕ) * ((d0.count m0 : ℚ)) ∈
            (d0 :: rest).enum.map (fun di => a.weight_recency ^ di.1 * (di.2.count m0 : ℚ)) := by
          rw [List.enum_cons]
          exact List.mem_cons_self _ _
        have hle := List.single_le_sum (hterm_nonneg _) _ hfirst
        have hcount : (1 : ℚ) ≤ (d0.count m0 : ℚ) := by
          have := List.count_pos_iff_mem.mpr hm0
          exact_mod_cast this
        calc (0 : ℚ) < 1 := one_pos
          _ ≤ (d0.count m0 : ℚ) := hcount
          _ = a.weight_recency ^ (0 : ℕ) * ((d0.count m0 : ℚ)) := by rw [pow_zero, one_mul]
          _ ≤ _ := hle)
    obtain ⟨out, hout, hkeys, hbounds, hattain⟩ := hok
    refine ⟨out, ?_, ?_, hbounds, hattain⟩
    · simpa using hout
    · rw [hkeys, List.map_map]
      exact map_pair_fst _ _

lemma gapValue_pos (a : GapAnalyzer) (history : List (List ℕ)) (m : ℕ)
    (hmnot : ∀ d, (history.take a.window).head? = some d → m ∉ d) :
    1 ≤ a.gapValue history m := by
  unfold GapAnalyzer.gapValue
  rcases hr : history.take a.window with _ | ⟨d0, rest⟩
  · simp [List.findIdx?]
  · have hmd0 : m ∉ d0 := hmnot d0 (by rw [hr]; rfl)
    rw [List.findIdx?_cons, if_neg (by simpa using hmd0), List.findIdx?_succ]
    cases hfi : rest.findIdx? (fun draw => decide (m ∈ draw)) 0 with
    | none =>
        simp only [Option.map_none']
        omega
    | some j =>
        simp only [Option.map_some']
        omega

lemma gap_scores_spec (a : GapAnalyzer) (history : List (List ℕ)) (hlh : a.lo ≤ a.hi)
    (hmiss : ∃ m, a.lo ≤ m ∧ m ≤ a.hi ∧
      ∀ d, (history.take a.window).head? = some d → m ∉ d) :
    ∃ out, a.get_scores history = some out ∧ scoreMapOk a.lo a.hi out := by
  obtain ⟨m, hmlo, hmhi, hmnot⟩ := hmiss
  have hgap1 := gapValue_pos a history m hmnot
  have hmrange : m ∈ rangeList a.lo a.hi := mem_rangeList.mpr ⟨hmlo, hmhi⟩
  have hmgaps : (m, a.gapValue history m) ∈ a.get_gaps history :=
    List.mem_map_of_mem _ hmrange
  have hcast_nonneg : ∀ q ∈ (a.get_gaps history).map (fun g => ((g.2 : ℚ))), 0 ≤ q := by
    intro q hq
    obtain ⟨g, _, hg⟩ := List.mem_map.mp hq
    subst hg
    exact Nat.cast_nonneg _
  have hsum : (1 : ℚ) ≤ ((a.get_gaps history).map (fun g => ((g.2 : ℚ)))).sum := by
    have hmem : ((a.gapValue history m : ℚ)) ∈
        (a.get_gaps history).map (fun g => ((g.2 : ℚ))) :=
      List.mem_map_of_mem _ hmgaps
    have := List.single_le_sum hcast_nonneg _ hmem
    have hc : (1 : ℚ) ≤ (a.gapValue history m : ℚ) := by exact_mod_cast hgap1
    linarith
  have hlen : (a.get_gaps history).length ≠ 0 := by
    unfold GapAnalyzer.get_gaps
    rw [List.length_map]
    intro hc
    exact rangeList_ne_nil hlh (List.length_eq_zero.mp hc)
  have hlenpos : (0 : ℚ) < ((a.get_gaps history).length : ℚ) := by
    have : 0 < (a.get_gaps history).length := Nat.pos_of_ne_zero hlen
    exact_mod_cast this
  have havgpos : (0 : ℚ) <
      ((a.get_gaps history).map (fun g => ((g.2 : ℚ)))).sum / ((a.get_gaps history).length : ℚ) :=
    div_pos (lt_of_lt_of_le one_pos hsum) hlenpos
  unfold GapAnalyzer.get_scores
  dsimp only
  rw [if_pos hlen, if_neg (fun hc => absurd hc.2 (ne_of_gt havgpos))]
  have hok := normalizeScores_spec
    (l := (a.get_gaps history).map (fun g => (g.1, (g.2 : ℚ) /
      (((a.get_gaps history).map (fun g => ((g.2 : ℚ)))).sum / ((a.get_gaps history).length : ℚ)))))
    (by
      intro q hq
      obtain ⟨g, _, hg⟩ := List.mem_map.mp hq
      subst hg
      exact div_nonneg (Nat.cast_nonneg _) havgpos.le)
    (by
      refine ⟨_, List.mem_map_of_mem _ hmgaps, ?_⟩
      dsimp only
      apply div_pos _ havgpos
      have : (0 : ℚ) < 1 := one_pos
      have hc : (1 : ℚ) ≤ (a.gapValue history m : ℚ) := by exact_mod_cast hgap1
      linarith)
  obtain ⟨out, hout, hkeys, hbounds, hattain⟩ := hok
  refine ⟨out, hout, ?_, hbounds, hattain⟩
  rw [hkeys]
  unfold GapAnalyzer.get_gaps
  rw [List.map_map, List.map_map]
  exact map_pair_fst _ _

lemma find_score_getD_ge (zs : List (String × ℚ)) (h : ∀ z ∈ zs, (1 : ℚ) / 100 ≤ z.2)
    (g : String × ℚ → Bool) :
    (1 : ℚ) / 100 ≤ (((zs.find? g).map Prod.snd).getD (1 / 100)) := by
  rcases hf : zs.find? g with _ | z
  · simp
  · simp only [Option.map_some', Option.getD_some]
    exact h z (List.mem_of_find?_eq_some hf)

lemma get_zone_distribution_isSome (p : PositionBiasAnalyzer) (history : List (List ℕ))
    (hbne : p.bands ≠ []) :
    ∃ dist, p.get_zone_distribution history = some dist := by
  unfold PositionBiasAnalyzer.get_zone_distribution
  rw [if_neg (by simpa [List.isEmpty_iff] using hbne)]
  dsimp only
  split
  · exact ⟨_, rfl⟩
  · exact ⟨_, rfl⟩

lemma pos_scores_spec (p : PositionBiasAnalyzer) (history : List (List ℕ))
    (hlh : p.lo ≤ p.hi) (hbne : p.bands ≠ []) :
    ∃ out, p.get_scores history = some out ∧ scoreMapOk p.lo p.hi out := by
  obtain ⟨dist, hdist⟩ := get_zone_distribution_isSome p history hbne
  unfold PositionBiasAnalyzer.get_scores
  rw [hdist]
  dsimp only
  have hz : ∀ z ∈ p.bands.map (fun b =>
      (b.1, max 0 ((1 : ℚ) / (p.bands.length : ℚ) -
        (((dist.find? (fun d => decide (d.1 = b.1))).map Prod.snd).getD 0)) + 1 / 100)),
      (1 : ℚ) / 100 ≤ z.2 := by
    intro z hz
    obtain ⟨b, _, hb⟩ := List.mem_map.mp hz
    subst hb
    dsimp only
    exact le_add_of_nonneg_left (le_max_left 0 _)
  have hok := normalizeScores_spec
    (l := (rangeList p.lo p.hi).map (fun n =>
      (n, (((p.bands.map (fun b =>
        (b.1, max 0 ((1 : ℚ) / (p.bands.length : ℚ) -
          (((dist.find? (fun d => decide (d.1 = b.1))).map Prod.snd).getD 0)) + 1 / 100))).find?
            (fun z => decide (some z.1 = p.get_zone n))).map Prod.snd).getD (1 / 100))))
    (by
      intro q hq
      obtain ⟨n, _, hn⟩ := List.mem_map.mp hq
      subst hn
      dsimp only
      have := find_score_getD_ge _ hz (fun z => decide (some z.1 = p.get_zone n))
      linarith)
    (by
      obtain ⟨n0, hn0⟩ := List.exists_mem_of_ne_nil _ (rangeList_ne_nil hlh)
      refine ⟨_, List.mem_map_of_mem _ hn0, ?_⟩
      dsimp only
      have := find_score_getD_ge _ hz (fun z => decide (some z.1 = p.get_zone n0))
      linarith)
  obtain ⟨out, hout, hkeys, hbounds, hattain⟩ := hok
  refine ⟨out, hout, ?_, hbounds, hattain⟩
  rw [hkeys, List.map_map]
  exact map_pair_fst _ _

lemma gap_scores_all_zero_none : (GapAnalyzer.mk 1 2 50).get_scores [[1, 2]] = none := by
  have hg : (GapAnalyzer.mk 1 2 50).get_gaps [[1, 2]] = [(1, 0), (2, 0)] := by decide
  unfold GapAnalyzer.get_scores
  rw [hg]
  norm_num

/-- C8 (counterexample): on the range `[1, 2]` with the non-empty in-range
history `[[1, 2]]`, every number of the range appears in the most recent
draw, so every gap is 0, the average gap is 0, and `GapAnalyzer.get_scores`
raises ZeroDivisionError (modelled as `none`) instead of returning a score
map. -/
theorem analyzer_scores_counterexample :
    (GapAnalyzer.mk 1 2 50).get_scores [[1, 2]] = none ∧
      ([[1, 2]] : List (List ℕ)) ≠ [] ∧
      (∀ d ∈ ([[1, 2]] : List (List ℕ)), ∀ m ∈ d, 1 ≤ m ∧ m ≤ 2) :=
  ⟨gap_scores_all_zero_none, by decide, by decide⟩

/-- C8 (amended): for every range `[lo, hi]` with `lo ≤ hi`, positive recency
decay, nonempty zone list, and every history whose draws are nonempty and
contain only numbers within `[lo, hi]`, and such that some number of the
range is absent from the most recent draw of the gap window (without this the
gap analyzer divides by zero, see the counterexample), each of the frequency,
gap, and position-bias `get_scores` returns a map whose key list is exactly
`lo..hi`, whose values all lie in `[0, 1]`, and which attains the value 1. -/
theorem analyzer_scores_spec (lo hi wf wg : ℕ) (γ : ℚ)
    (bands : List (String × ℕ × ℕ)) (history : List (List ℕ))
    (hlh : lo ≤ hi) (hγ : 0 < γ)
    (hdr : ∀ d ∈ history, d ≠ [] ∧ ∀ m ∈ d, lo ≤ m ∧ m ≤ hi)
    (hmiss : ∃ m, lo ≤ m ∧ m ≤ hi ∧
      ∀ d, (history.take wg).head? = some d → m ∉ d)
    (hbne : bands ≠ []) :
    (∃ out, (FrequencyAnalyzer.mk lo hi wf γ).get_scores history = some out ∧
      scoreMapOk lo hi out) ∧
    (∃ out, (GapAnalyzer.mk lo hi wg).get_scores history = some out ∧
      scoreMapOk lo hi out) ∧
    (∃ out, (PositionBiasAnalyzer.mk lo hi bands).get_scores history = some out ∧
      scoreMapOk lo hi out) :=
  ⟨freq_scores_spec (FrequencyAnalyzer.mk lo hi wf γ) history hlh hγ hdr,
   gap_scores_spec (GapAnalyzer.mk lo hi wg) history hlh hmiss,
   pos_scores_spec (PositionBiasAnalyzer.mk lo hi bands) history hlh hbne⟩

/-- C8 witness: range `[1, 2]`, history `[[1]]` (the number 2 is absent from
the most recent draw), one zone covering the range. -/
theorem analyzer_scores_spec_witness :
    (∃ out, (FrequencyAnalyzer.mk 1 2 100 (3 / 5)).get_scores [[1]] = some out ∧
      scoreMapOk 1 2 out) ∧
    (∃ out, (GapAnalyzer.mk 1 2 50).get_scores [[1]] = some out ∧
      scoreMapOk 1 2 out) ∧
    (∃ out, (PositionBiasAnalyzer.mk 1 2 [("low", 1, 2)]).get_scores [[1]] = some out ∧
      scoreMapOk 1 2 out) :=
  analyzer_scores_spec 1 2 100 50 (3 / 5) [("low", 1, 2)] [[1]]
    (by norm_num) (by norm_num) (by decide)
    ⟨2, by norm_num, by norm_num, by
      intro d hd
      simp only [List.take, List.head?] at hd
      cases hd
      decide⟩
    (by decide)

/-! ## Ensemble predictor (src/models/ensemble_predictor.py) -/

/-- The two ways `EnsemblePredictor.predict` can fail: the explicit
`ValueError` on empty history (line 91), and an uncaught exception escaping a
statistical analyzer (only `RuntimeError` from the ML scorers is caught). -/
inductive PredictError where
  | insufficientHistory
  | analyzerFailure
deriving Repr, DecidableEq

/-- `EnsemblePredictor` configuration (ensemble_predictor.py lines 29-68):
the number range, the three ensemble weights, and the statistical analyzer
parameters the constructor passes through. -/
structure EnsemblePredictor where
  mk ::
  lo : ℕ
  hi : ℕ
  w_lstm : ℚ
  w_xgb : ℚ
  w_stat : ℚ
  frequency_window : ℕ
  weight_recency : ℚ
  gap_window : ℕ
  position_balance : List (String × ℕ × ℕ)
deriving Repr, DecidableEq

/-- The `self.freq_analyzer` built in `__init__`. -/
def EnsemblePredictor.freq_analyzer (e : EnsemblePredictor) : FrequencyAnalyzer :=
  FrequencyAnalyzer.mk e.lo e.hi e.frequency_window e.weight_recency

/-- The `self.gap_analyzer` built in `__init__`. -/
def EnsemblePredictor.gap_analyzer (e : EnsemblePredictor) : GapAnalyzer :=
  GapAnalyzer.mk e.lo e.hi e.gap_window

/-- The `self.position_bias` built in `__init__`. -/
def EnsemblePredictor.position_bias (e : EnsemblePredictor) : PositionBiasAnalyzer :=
  PositionBiasAnalyzer.mk e.lo e.hi e.position_balance

/-- Dict value lookup: `d[n]` on the complete score dicts of `predict`, and
`d.get(n, 0)` in its final weighted sum. -/
def scoreGet (l : List (ℕ × ℚ)) (n : ℕ) : ℚ :=
  ((l.find? (fun q => decide (q.1 = n))).map Prod.snd).getD 0

/-- The `stat_scores` dict of `predict` (ensemble_predictor.py lines 93-100):
the pointwise average of the three statistical score maps; `none` when one of
the analyzers raises. -/
def EnsemblePredictor.stat_scores (e : EnsemblePredictor) (history : List (List ℕ)) :
    Option (List (ℕ × ℚ)) :=
  match e.freq_analyzer.get_scores history, e.gap_analyzer.get_scores history,
      e.position_bias.get_scores history with
  | some fs, some gs, some ps =>
      some ((rangeList e.lo e.hi).map (fun n =>
        (n, (scoreGet fs n + scoreGet gs n + scoreGet ps n) / 3)))
  | _, _, _ => none

/-- The uniform fallback map `{n: 1.0 / (self.hi - self.lo + 1)}` used when
the Markov scorer is not loaded (ensemble_predictor.py line 119). -/
def uniform_scores (lo hi : ℕ) : List (ℕ × ℚ) :=
  (rangeList lo hi).map (fun n => (n, 1 / ((hi : ℚ) - (lo : ℚ) + 1)))

/-- `EnsemblePredictor.predict` (ensemble_predictor.py lines 86-142).  The
three ML scorers are passed as oracles: `none` models a scorer whose
`get_scores` raises `RuntimeError` (ModelNotReady), `some m` a loaded scorer
returning map `m`.  On `none` the code substitutes `stat_scores` (lstm,
xgboost) or the uniform map (markov); it then blends xgboost and markov 50/50,
takes the weighted sum, ranks all numbers by descending final score
(Python `sorted(..., reverse=True)`, a stable sort), and hands the ranking to
`pick_balanced`. -/
def EnsemblePredictor.predict (e : EnsemblePredictor)
    (lstm_res xgb_res markov_res : Option (List (ℕ × ℚ)))
    (history : List (List ℕ)) (n_picks : ℕ) : Except PredictError (List ℕ) :=
  if history.length = 0 then Except.error PredictError.insufficientHistory
  else
    match e.stat_scores history with
    | none => Except.error PredictError.analyzerFailure
    | some stat =>
        let lstm_scores := lstm_res.getD stat
        let xgb_scores := xgb_res.getD stat
        let markov_scores := markov_res.getD (uniform_scores e.lo e.hi)
        let xgb_blended := (rangeList e.lo e.hi).map (fun n =>
          (n, (scoreGet xgb_scores n + scoreGet markov_scores n) / 2))
        let final_scores := (rangeList e.lo e.hi).map (fun n =>
          (n, e.w_lstm * scoreGet lstm_scores n + e.w_xgb * scoreGet xgb_blended n
            + e.w_stat * scoreGet stat n))
        let top_candidates := List.insertionSort
          (fun n1 n2 => scoreGet final_scores n2 ≤ scoreGet final_scores n1)
          (rangeList e.lo e.hi)
        Except.ok (e.position_bias.pick_balanced top_candidates n_picks)

/-- A small concrete predictor over the range `[1, 2]` used for the C6
counterexample and witness. -/
def predictorEx : EnsemblePredictor :=
  EnsemblePredictor.mk 1 2 (40 / 100) (35 / 100) (25 / 100) 100 (3 / 5) 50
    [("low", 1, 2)]

/-- C6 (counterexample): `predict` can also fail on a NON-empty history: on
range `[1, 2]` with history `[[1, 2]]`, the gap analyzer's ZeroDivisionError
(average gap 0) is not caught — only `RuntimeError` from the ML scorers is —
so `predict` raises even though the history is non-empty, refuting the
claimed "fails if and only if the history list is empty". -/
theorem predict_counterexample :
    predictorEx.predict none none none [[1, 2]] 2 =
      Except.error PredictError.analyzerFailure ∧
    ([[1, 2]] : List (List ℕ)) ≠ [] := by
  refine ⟨?_, by decide⟩
  have hstat : predictorEx.stat_scores [[1, 2]] = none := by
    unfold EnsemblePredictor.stat_scores
    have hgap : predictorEx.gap_analyzer.get_scores [[1, 2]] = none :=
      gap_scores_all_zero_none
    rw [hgap]
    rcases predictorEx.freq_analyzer.get_scores [[1, 2]] with _ | fs <;>
      rcases predictorEx.position_bias.get_scores [[1, 2]] with _ | ps <;> rfl
  unfold EnsemblePredictor.predict
  rw [hstat]
  rfl

/-- C6 (amended): `predict` raises exactly the empty-history error on an
empty history, for every scorer state; on a non-empty history over a sane
configuration (`lo ≤ hi`, positive recency decay, nonempty zones) whose
draws are nonempty and in range and whose most recent gap-window draw does
not cover the whole range (without this the gap analyzer's uncaught
ZeroDivisionError propagates, see the counterexample), `predict` succeeds for
EVERY combination of ready/not-ready ML scorers — a ModelNotReady condition
is recovered locally, the sequence and feature scores falling back to the
statistical average map and the transition scores to the uniform map. -/
theorem predict_spec (e : EnsemblePredictor)
    (lstm_res xgb_res markov_res : Option (List (ℕ × ℚ)))
    (history : List (List ℕ)) (n_picks : ℕ)
    (hlh : e.lo ≤ e.hi) (hγ : 0 < e.weight_recency) (hbne : e.position_balance ≠ [])
    (hdr : ∀ d ∈ history, d ≠ [] ∧ ∀ m ∈ d, e.lo ≤ m ∧ m ≤ e.hi)
    (hmiss : ∃ m, e.lo ≤ m ∧ m ≤ e.hi ∧
      ∀ d, (history.take e.gap_window).head? = some d → m ∉ d)
    (hhist : history ≠ []) :
    (∀ l x mk2 n, e.predict l x mk2 [] n =
      Except.error PredictError.insufficientHistory) ∧
    (∃ picks, e.predict lstm_res xgb_res markov_res history n_picks =
      Except.ok picks) ∧
    (∀ stat, e.stat_scores history = some stat →
      (e.predict none xgb_res markov_res history n_picks =
        e.predict (some stat) xgb_res markov_res history n_picks) ∧
      (e.predict lstm_res none markov_res history n_picks =
        e.predict lstm_res (some stat) markov_res history n_picks)) ∧
    (e.predict lstm_res xgb_res none history n_picks =
      e.predict lstm_res xgb_res (some (uniform_scores e.lo e.hi)) history n_picks) := by
  have hlen0 : ¬ history.length = 0 := fun hc => hhist (List.length_eq_zero.mp hc)
  obtain ⟨fs, hfs, _⟩ := freq_scores_spec e.freq_analyzer history hlh hγ hdr
  obtain ⟨gs, hgs, _⟩ := gap_scores_spec e.gap_analyzer history hlh hmiss
  obtain ⟨ps, hps, _⟩ := pos_scores_spec e.position_bias history hlh hbne
  have hstat : ∃ stat, e.stat_scores history = some stat := by
    unfold EnsemblePredictor.stat_scores
    rw [hfs, hgs, hps]
    exact ⟨_, rfl⟩
  obtain ⟨stat, hstat⟩ := hstat
  refine ⟨?_, ?_, ?_, ?_⟩
  · intro l x mk2 n; rfl
  · unfold EnsemblePredictor.predict
    rw [if_neg hlen0, hstat]
    exact ⟨_, rfl⟩
  · intro stat2 hstat2
    constructor
    · unfold EnsemblePredictor.predict
      simp only [if_neg hlen0, hstat2]
      rfl
    · unfold EnsemblePredictor.predict
      simp only [if_neg hlen0, hstat2]
      rfl
  · unfold EnsemblePredictor.predict
    simp only [if_neg hlen0]
    cases hstat3 : e.stat_scores history <;> rfl

/-- C6 witness: the `[1, 2]` predictor on history `[[1]]` with all three ML
scorers not ready. -/
theorem predict_spec_witness :
    (∀ l x mk2 n, predictorEx.predict l x mk2 [] n =
      Except.error PredictError.insufficientHistory) ∧
    (∃ picks, predictorEx.predict none none none [[1]] 2 = Except.ok picks) ∧
    (∀ stat, predictorEx.stat_scores [[1]] = some stat →
      (predictorEx.predict none none none [[1]] 2 =
        predictorEx.predict (some stat) none none [[1]] 2) ∧
      (predictorEx.predict none none none [[1]] 2 =
        predictorEx.predict none (some stat) none [[1]] 2)) ∧
    (predictorEx.predict none none none [[1]] 2 =
      predictorEx.predict none none
        (some (uniform_scores predictorEx.lo predictorEx.hi)) [[1]] 2) :=
  predict_spec predictorEx none none none [[1]] 2
    (by decide) (by norm_num [predictorEx]) (by decide) (by decide)
    ⟨2, by decide, by decide, by
      intro d hd
      simp only [List.take, List.head?] at hd
      cases hd
      decide⟩
    (by decide)

/-! ## Markov chain persistence (src/models/ml/markov_chain.py)

Python strings are modelled as lists of character codes. -/

/-- The character codes of the strip set `"frozenset({})"` used in
`MarkovChain.load` (lines 102 and 106): `str.strip` removes any leading and
trailing characters drawn from this set. -/
def stripCodes : List ℕ := [102, 114, 111, 122, 101, 110, 115, 101, 116, 40, 123, 125, 41]

/-- The codes of the prefix `"frozenset({"` of `str(frozenset)`. -/
def fzOpen : List ℕ := [102, 114, 111, 122, 101, 110, 115, 101, 116, 40, 123]

/-- The codes of the suffix `"})"` of `str(frozenset)`. -/
def fzClose : List ℕ := [125, 41]

/-- `str(n)` for a natural number: decimal digit codes, most significant
first. -/
def natChars (n : ℕ) : List ℕ :=
  if n = 0 then [48] else (Nat.digits 10 n).reverse.map (fun d => 48 + d)

/-- `int(s)` on a plain digit string: fold the digits left to right. -/
def charsToNat (l : List ℕ) : ℕ :=
  l.foldl (fun acc c => 10 * acc + (c - 48)) 0

/-- `int(s)`: succeeds on nonempty all-digit strings, raises ValueError
(modelled `none`) otherwise.  (Python `int` also tolerates surrounding
whitespace and signs, which the round-trip path never produces.) -/
def parseInt? (l : List ℕ) : Option ℕ :=
  if l ≠ [] ∧ ∀ c ∈ l, 48 ≤ c ∧ c ≤ 57 then some (charsToNat l) else none

/-- `", ".join(parts)`: the separator CPython uses when rendering a set. -/
def joinCommaSpace : List (List ℕ) → List ℕ
  | [] => []
  | [p] => p
  | p :: parts => p ++ 44 :: 32 :: joinCommaSpace parts

/-- `str(frozenset({a, b, ...}))` = `"frozenset({a, b, ...})"`, with the
elements in the set's iteration order (the order of the modelled key
list). -/
def strFrozenset (elems : List ℕ) : List ℕ :=
  fzOpen ++ joinCommaSpace (elems.map natChars) ++ fzClose

/-- `s.strip(chars)`: drop characters of the set from both ends. -/
def pyStrip (cs : List ℕ) (s : List ℕ) : List ℕ :=
  ((s.dropWhile (fun c => decide (c ∈ cs))).reverse.dropWhile
    (fun c => decide (c ∈ cs))).reverse

/-- `s.split(", ")`: left-to-right split on the two-character separator. -/
def splitCommaSpace : List ℕ → List (List ℕ)
  | [] => [[]]
  | [c] => [[c]]
  | c :: c2 :: rest =>
      if c = 44 ∧ c2 = 32 then [] :: splitCommaSpace rest
      else
        match splitCommaSpace (c2 :: rest) with
        | [] => [[c]]
        | g :: gs => (c :: g) :: gs

/-- `frozenset(map(int, k.strip("frozenset({})").split(", ")))` from
`MarkovChain.load` (lines 102 and 106), as the parsed element list; `none`
when some piece is not a plain number (the `int` call raises). -/
def parseFrozenKey (s : List ℕ) : Option (List ℕ) :=
  (splitCommaSpace (pyStrip stripCodes s)).mapM parseInt?

lemma natChars_digits (n : ℕ) : ∀ c ∈ natChars n, 48 ≤ c ∧ c ≤ 57 := by
  intro c hc
  unfold natChars at hc
  split at hc
  · rw [List.mem_singleton] at hc
    omega
  · rw [List.mem_map] at hc
    obtain ⟨d, hd, rfl⟩ := hc
    rw [List.mem_reverse] at hd
    have := Nat.digits_lt_base (by norm_num) hd
    omega

lemma natChars_ne_nil (n : ℕ) : natChars n ≠ [] := by
  unfold natChars
  split
  · simp
  · intro hc
    rw [List.map_eq_nil_iff, List.reverse_eq_nil_iff] at hc
    exact (Nat.digits_ne_nil_iff_ne_zero.mpr (by assumption)) hc

lemma charsToNat_aux (ds : List ℕ) (acc : ℕ) :
    (ds.reverse.map (fun d => 48 + d)).foldl (fun a c => 10 * a + (c - 48)) acc
      = acc * 10 ^ ds.length + Nat.ofDigits 10 ds := by
  induction ds generalizing acc with
  | nil => simp [Nat.ofDigits]
  | cons d t ih =>
      rw [List.reverse_cons, List.map_append, List.foldl_append]
      simp only [List.map_cons, List.map_nil, List.foldl_cons, List.foldl_nil]
      rw [ih, Nat.ofDigits_cons]
      have hd : 48 + d - 48 = d := by omega
      rw [hd, List.length_cons, pow_succ]
      ring

lemma charsToNat_natChars (n : ℕ) : charsToNat (natChars n) = n := by
  unfold charsToNat natChars
  split
  · simp only [List.foldl_cons, List.foldl_nil]
    omega
  · rw [charsToNat_aux]
    simp [Nat.ofDigits_digits]

lemma parseInt?_natChars (n : ℕ) : parseInt? (natChars n) = some n := by
  unfold parseInt?
  rw [if_pos ⟨natChars_ne_nil n, natChars_digits n⟩, charsToNat_natChars]

lemma dropWhile_append_all_true {p : ℕ → Bool} {l l2 : List ℕ}
    (h : ∀ c ∈ l, p c = true) :
    (l ++ l2).dropWhile p = l2.dropWhile p := by
  induction l with
  | nil => rfl
  | cons c t ih =>
      rw [List.cons_append, List.dropWhile_cons, if_pos (h c (List.mem_cons_self _ _))]
      exact ih (fun c2 hc2 => h c2 (List.mem_cons_of_mem _ hc2))

lemma dropWhile_all_false {p : ℕ → Bool} {l : List ℕ} (h : ∀ c ∈ l, p c = false) :
    l.dropWhile p = l := by
  cases l with
  | nil => rfl
  | cons c t =>
      rw [List.dropWhile_cons, if_neg]
      rw [h c (List.mem_cons_self _ _)]
      exact fun hc => nomatch hc

lemma pyStrip_sandwich (pre post s : List ℕ)
    (hpre : ∀ c ∈ pre, c ∈ stripCodes) (hpost : ∀ c ∈ post, c ∈ stripCodes)
    (hmid : ∀ c ∈ s, c ∉ stripCodes) :
    pyStrip stripCodes (pre ++ s ++ post) = s := by
  unfold pyStrip
  have hs1 : (pre ++ s ++ post).dropWhile (fun c => decide (c ∈ stripCodes)) =
      (s ++ post).dropWhile (fun c => decide (c ∈ stripCodes)) := by
    rw [List.append_assoc]
    exact dropWhile_append_all_true (fun c hc => by simpa using hpre c hc)
  rw [hs1]
  cases s with
  | nil =>
      rw [List.nil_append]
      have hpost2 : post.dropWhile (fun c => decide (c ∈ stripCodes)) = [] := by
        rw [List.dropWhile_eq_nil_iff]
        intro c hc
        simpa using hpost c hc
      rw [hpost2]
      rfl
  | cons c t =>
      rw [List.cons_append, List.dropWhile_cons,
        if_neg (by simpa using hmid c (List.mem_cons_self _ _))]
      rw [show (c :: (t ++ post)) = (c :: t) ++ post from rfl, List.reverse_append]
      rw [dropWhile_append_all_true
        (fun c2 hc2 => by simpa using hpost c2 (List.mem_reverse.mp hc2))]
      rw [dropWhile_all_false
        (fun c2 hc2 => by simpa using hmid c2 (List.mem_reverse.mp hc2))]
      exact List.reverse_reverse _

lemma mem_joinCommaSpace {c : ℕ} {parts : List (List ℕ)}
    (hc : c ∈ joinCommaSpace parts) :
    (∃ p ∈ parts, c ∈ p) ∨ c = 44 ∨ c = 32 := by
  induction parts with
  | nil => cases hc
  | cons p rest ih =>
      cases rest with
      | nil => exact Or.inl ⟨p, List.mem_cons_self _ _, hc⟩
      | cons q rest2 =>
          have hc2 : c ∈ p ++ 44 :: 32 :: joinCommaSpace (q :: rest2) := hc
          rcases List.mem_append.mp hc2 with h | h
          · exact Or.inl ⟨p, List.mem_cons_self _ _, h⟩
          · rcases List.mem_cons.mp h with h2 | h2
            · exact Or.inr (Or.inl h2)
            · rcases List.mem_cons.mp h2 with h3 | h3
              · exact Or.inr (Or.inr h3)
              · rcases ih h3 with ⟨p2, hp2, hcp2⟩ | h4 | h4
                · exact Or.inl ⟨p2, List.mem_cons_of_mem _ hp2, hcp2⟩
                · exact Or.inr (Or.inl h4)
                · exact Or.inr (Or.inr h4)

lemma splitCommaSpace_no_comma (p : List ℕ) (h : ∀ c ∈ p, c ≠ 44) :
    splitCommaSpace p = [p] := by
  induction p with
  | nil => rfl
  | cons c rest ih =>
      cases rest with
      | nil => rfl
      | cons c2 rest2 =>
          have hc : c ≠ 44 := h c (List.mem_cons_self _ _)
          have ih2 := ih (fun c3 hc3 => h c3 (List.mem_cons_of_mem _ hc3))
          simp only [splitCommaSpace]
          rw [if_neg (fun hcc => hc hcc.1), ih2]

lemma splitCommaSpace_append_sep (p s : List ℕ) (h : ∀ c ∈ p, c ≠ 44) :
    splitCommaSpace (p ++ 44 :: 32 :: s) = p :: splitCommaSpace s := by
  induction p with
  | nil =>
      simp only [List.nil_append, splitCommaSpace]
      rw [if_pos ⟨trivial, trivial⟩]
  | cons c rest ih =>
      have hc : c ≠ 44 := h c (List.mem_cons_self _ _)
      have ih2 := ih (fun c3 hc3 => h c3 (List.mem_cons_of_mem _ hc3))
      cases rest with
      | nil =>
          simp only [List.nil_append, List.cons_append, splitCommaSpace]
          rw [if_neg (fun hcc => hc hcc.1)]
          rw [if_pos ⟨trivial, trivial⟩]
      | cons c2 rest2 =>
          simp only [List.cons_append, splitCommaSpace]
          rw [if_neg (fun hcc => hc hcc.1)]
          have ih3 : splitCommaSpace (c2 :: (rest2 ++ 44 :: 32 :: s)) =
              (c2 :: rest2) :: splitCommaSpace s := by
            have := ih2
            rw [List.cons_append] at this
            exact this
          simp only [List.append_eq]
          rw [ih3]

lemma splitCommaSpace_join (parts : List (List ℕ))
    (h : ∀ p ∈ parts, ∀ c ∈ p, c ≠ 44) (hne : parts ≠ []) :
    splitCommaSpace (joinCommaSpace parts) = parts := by
  induction parts with
  | nil => exact absurd rfl hne
  | cons p rest ih =>
      cases rest with
      | nil => exact splitCommaSpace_no_comma p (h p (List.mem_cons_self _ _))
      | cons q rest2 =>
          show splitCommaSpace (p ++ 44 :: 32 :: joinCommaSpace (q :: rest2)) = _
          rw [splitCommaSpace_append_sep _ _ (h p (List.mem_cons_self _ _))]
          rw [ih (fun p2 hp2 => h p2 (List.mem_cons_of_mem _ hp2)) (by simp)]

lemma mapM_parseInt_natChars (l : List ℕ) :
    (l.map natChars).mapM parseInt? = some l := by
  induction l with
  | nil => rfl
  | cons a t ih =>
      rw [List.map_cons, List.mapM_cons, parseInt?_natChars, ih]
      rfl

lemma parseFrozenKey_strFrozenset (l : List ℕ) (hne : l ≠ []) :
    parseFrozenKey (strFrozenset l) = some l := by
  unfold parseFrozenKey strFrozenset
  have hmid : ∀ c ∈ joinCommaSpace (l.map natChars), c ∉ stripCodes := by
    intro c hc
    rcases mem_joinCommaSpace hc with ⟨p, hp, hcp⟩ | h | h
    · obtain ⟨n, _, rfl⟩ := List.mem_map.mp hp
      have hd := natChars_digits n c hcp
      intro hmem
      unfold stripCodes at hmem
      simp only [List.mem_cons, List.not_mem_nil, or_false] at hmem
      omega
    · subst h; decide
    · subst h; decide
  rw [pyStrip_sandwich fzOpen fzClose _ (by decide) (by decide) hmid]
  rw [splitCommaSpace_join _ ?_ ?_]
  · exact mapM_parseInt_natChars l
  · intro p hp c hc
    obtain ⟨n, _, rfl⟩ := List.mem_map.mp hp
    have hd := natChars_digits n c hc
    omega
  · simpa using hne

/-- `MarkovChain` state (markov_chain.py lines 23-30): number range, order,
smoothing, the transition-count table keyed by the previous draw's frozenset
(modelled as its element list in iteration order), the per-state totals, and
the `_trained` flag. -/
structure MarkovChain where
  mk ::
  lo : ℕ
  hi : ℕ
  order : ℕ
  smoothing : ℚ
  transition_counts : List (List ℕ × List (ℕ × ℚ))
  total_transitions : List (List ℕ × ℚ)
  trained : Bool
deriving Repr, DecidableEq

/-- `MarkovChain.get_scores` (markov_chain.py lines 53-76): Laplace-smoothed
`P(num | frozenset(history[0]))`, normalized by the sum.  Dict lookup of a
frozenset key is by set equality.  `none` models the RuntimeError when not
trained and the IndexError of `history[0]` on an empty history.  (With a
degenerate zero smoothing the Python divisions raise identically before and
after a save/load round trip, so they are kept as total rational
division.) -/
def MarkovChain.get_scores (m : MarkovChain) (history : List (List ℕ)) :
    Option (List (ℕ × ℚ)) :=
  if m.trained = false then none
  else
    match history.head? with
    | none => none
    | some h0 =>
        let state_total := ((m.total_transitions.find?
          (fun p => decide (p.1.toFinset = h0.toFinset))).map Prod.snd).getD 0
        let counts := ((m.transition_counts.find?
          (fun p => decide (p.1.toFinset = h0.toFinset))).map Prod.snd).getD []
        let n_numbers : ℚ := (m.hi : ℚ) - (m.lo : ℚ) + 1
        let raw := (rangeList m.lo m.hi).map (fun n =>
          (n, (scoreGet counts n + m.smoothing) /
            (state_total + m.smoothing * n_numbers)))
        let total := (raw.map Prod.snd).sum
        some (raw.map (fun q => (q.1, q.2 / total)))

/-- The pickled payload written by `MarkovChain.save` (markov_chain.py lines
78-89): both tables re-keyed by `str(frozenset_key)` (lists of character
codes), plus order, smoothing and the range. -/
structure MarkovSaved where
  mk ::
  transition_counts : List (List ℕ × List (ℕ × ℚ))
  total_transitions : List (List ℕ × ℚ)
  order : ℕ
  smoothing : ℚ
  lo : ℕ
  hi : ℕ
deriving Repr, DecidableEq

/-- `MarkovChain.save` (markov_chain.py lines 78-89). -/
def MarkovChain.save (m : MarkovChain) : MarkovSaved :=
  MarkovSaved.mk
    (m.transition_counts.map (fun p => (strFrozenset p.1, p.2)))
    (m.total_transitions.map (fun p => (strFrozenset p.1, p.2)))
    m.order m.smoothing m.lo m.hi

/-- `MarkovChain.load` (markov_chain.py lines 91-109): restore the scalar
fields, re-parse every table key via
`frozenset(map(int, k.strip("frozenset({})").split(", ")))`, and set
`_trained = True`.  `none` models the ValueError `int` raises on an
unparsable key piece (e.g. the serialization of an empty frozenset). -/
def MarkovChain.load (d : MarkovSaved) : Option MarkovChain :=
  match d.transition_counts.mapM
      (fun p => (parseFrozenKey p.1).map (fun k => (k, p.2))),
    d.total_transitions.mapM
      (fun p => (parseFrozenKey p.1).map (fun k => (k, p.2))) with
  | some tc, some tt =>
      some (MarkovChain.mk d.lo d.hi d.order d.smoothing tc tt true)
  | _, _ => none

lemma mapM_parseFrozenKey_roundtrip {β : Type} (l : List (List ℕ × β))
    (h : ∀ p ∈ l, p.1 ≠ []) :
    (l.map (fun p => (strFrozenset p.1, p.2))).mapM
      (fun p => (parseFrozenKey p.1).map (fun k => (k, p.2))) = some l := by
  induction l with
  | nil => rfl
  | cons a t ih =>
      rw [List.map_cons, List.mapM_cons]
      have ha : parseFrozenKey (strFrozenset a.1) = some a.1 :=
        parseFrozenKey_strFrozenset a.1 (h a (List.mem_cons_self _ _))
      dsimp only
      rw [ha, ih (fun p hp => h p (List.mem_cons_of_mem _ hp))]
      rfl

/-- C9: for every trained `MarkovChain` whose state keys are non-empty number
sets, `save` followed by `load` restores `transition_counts` and
`total_transitions` (and the scalar fields) exactly — the persisted,
string-serialized state round-trips the full transition-count table — so
`get_scores` after the round trip equals `get_scores` before it for every
history. -/
theorem markov_save_load_roundtrip (m : MarkovChain)
    (h1 : ∀ p ∈ m.transition_counts, p.1 ≠ [])
    (h2 : ∀ p ∈ m.total_transitions, p.1 ≠ [])
    (htr : m.trained = true) :
    MarkovChain.load m.save = some m ∧
    (∀ history, ∃ m2, MarkovChain.load m.save = some m2 ∧
      m2.get_scores history = m.get_scores history) := by
  have hload : MarkovChain.load m.save = some m := by
    unfold MarkovChain.load MarkovChain.save
    dsimp only
    rw [mapM_parseFrozenKey_roundtrip m.transition_counts h1,
      mapM_parseFrozenKey_roundtrip m.total_transitions h2]
    dsimp only
    cases m with
    | mk lo hi order smoothing tc tt trained =>
        dsimp only at htr ⊢
        rw [htr]
  exact ⟨hload, fun history => ⟨m, hload, rfl⟩⟩

/-- C9 witness: a two-state trained chain over `[1, 3]`. -/
theorem markov_save_load_roundtrip_witness :
    MarkovChain.load
      (MarkovChain.mk 1 3 2 (1 / 100)
        [([1, 2], [(1, 2), (3, 1)]), ([2, 3], [(2, 4)])]
        [([1, 2], 3), ([2, 3], 4)] true).save =
      some (MarkovChain.mk 1 3 2 (1 / 100)
        [([1, 2], [(1, 2), (3, 1)]), ([2, 3], [(2, 4)])]
        [([1, 2], 3), ([2, 3], 4)] true) :=
  (markov_save_load_roundtrip
    (MarkovChain.mk 1 3 2 (1 / 100)
      [([1, 2], [(1, 2), (3, 1)]), ([2, 3], [(2, 4)])]
      [([1, 2], 3), ([2, 3], 4)] true)
    (by decide) (by decide) rfl).1
